import Mathlib

/-!
Shallow embedding of `cpp/src/gandiva/like_holder.cc` (Apache Arrow, Gandiva):
`RegexpMatchesHolder` (validation, pattern extraction, holder construction and
the `TryOptimize` rewrite) and `SQLLikeHolder` (the LIKE-flavored constructor).

External collaborators are parameters of the embedding:
* the RE2 engine's acceptance of a pattern string (`RE2::ok()` on the compiled
  pattern) is a parameter `re2ok : String → Bool`;
* `RegexUtil::SqlLikePatternToPcre` (defined in `regex_util.cc`, outside this
  file) is a parameter `translate : String → Except String String`.

The three fixed recognizer regexes of the optimizer are embedded as executable
full-match functions on strings; RE2's `\w` is ASCII `[0-9A-Za-z_]` and `\s` is
`[\t\n\f\r ]`, and in each of the three regexes the character classes are
disjoint from the literal metacharacter text (`^`, `$`, `.`, `*`), so greedy
scanning realizes exactly the regex's full-match semantics.
-/

namespace Gandiva

/-- Arrow type ids (`arrow::Type::type`) as far as gandiva literal validation
inspects them: the two string-like ids plus representative non-string ids. -/
inductive ArrowType where
  | string
  | binary
  | int32
  | float64
  | boolean
  deriving DecidableEq, Repr

/-- `gandiva::LiteralHolder`: the variant of literal values. String and binary
literals carry a `std::string`; all other alternatives are collapsed into
`nonString`, since this file only ever extracts the string alternative. -/
inductive LiteralHolder where
  | str (s : String)
  | nonString
  deriving DecidableEq, Repr

/-- Expression-tree nodes (`gandiva/node.h`): function calls, literals and
field references. Only the attributes read by `like_holder.cc` are kept:
operation name, ordered children, declared return type, and for literals the
value holder and nullability. -/
inductive Node where
  | fn (name : String) (children : List Node) (retType : ArrowType)
  | lit (retType : ArrowType) (holder : LiteralHolder) (nullable : Bool)
  | field (name : String) (retType : ArrowType)

/-- `NodePtr->return_type()`. -/
def Node.returnType : Node → ArrowType
  | .fn _ _ t => t
  | .lit t _ _ => t
  | .field _ t => t

/-- `gandiva::FunctionNode` as `TryOptimize` consumes and produces it:
descriptor name, children, declared return type. -/
structure FunctionNode where
  name : String
  children : List Node
  retType : ArrowType

/-- `arrow::Status` as used here: `OK` or `Invalid(message)`. -/
inductive Status where
  | ok
  | invalid (msg : String)
  deriving DecidableEq, Repr

/-- RE2 `\w` with default options: ASCII `[0-9A-Za-z_]`. -/
def isWordChar (c : Char) : Bool :=
  ('a' ≤ c && c ≤ 'z') || ('A' ≤ c && c ≤ 'Z') || ('0' ≤ c && c ≤ '9') || c = '_'

/-- RE2 `\s`: ASCII whitespace `[\t\n\f\r ]`. -/
def isSpaceChar (c : Char) : Bool :=
  c = ' ' || c = '\t' || c = '\n' || c = '\x0c' || c = '\r'

/-- The character class `[\w\s]` (equivalently `(\w|\s)`) of the three
recognizer regexes. -/
def isWordOrSpace (c : Char) : Bool :=
  isWordChar c || isSpaceChar c

/-- `RE2::FullMatch(pattern, starts_with_regex_, &substr)` where
`starts_with_regex_` is `\^([\w\s]+)(\.\*)?`: a literal `^`, then one or more
word-or-space characters (the capture), then optionally the literal two
characters `.*`. Returns the capture on a whole-string match. Since `.` and
`*` are not in `[\w\s]`, the greedy scan is exactly the regex's unique
full-match decomposition. -/
def startsWithFullMatch (s : String) : Option String :=
  match s.data with
  | c :: rest =>
    if c = '^' then
      let body := rest.takeWhile isWordOrSpace
      let tl := rest.dropWhile isWordOrSpace
      if body.isEmpty then none
      else if tl.isEmpty || tl == ['.', '*'] then some ⟨body⟩
      else none
    else none
  | [] => none

/-- The `([\w\s]+)\$` tail shared by both alternatives of `ends_with_regex_`:
one or more word-or-space characters (the capture) followed by a literal `$`
ending the string. -/
def endsWithCore (l : List Char) : Option String :=
  let body := l.takeWhile isWordOrSpace
  let tl := l.dropWhile isWordOrSpace
  if body.isEmpty then none
  else if tl == ['$'] then some ⟨body⟩
  else none

/-- `RE2::FullMatch(pattern, ends_with_regex_, (void*)NULL, &substr)` where
`ends_with_regex_` is `(\.\*)?([\w\s]+)\$`: an optional literal `.*`, then one
or more word-or-space characters (the second capture, the one extracted), then
a literal `$`. When the string starts with `.*` only the marker-present
alternative can full-match (a capture cannot start with `.`), and otherwise
only the marker-absent one, so the two arms below are exhaustive and
exclusive. -/
def endsWithFullMatch (s : String) : Option String :=
  match s.data with
  | c1 :: c2 :: rest =>
    if c1 = '.' && c2 = '*' then endsWithCore rest else endsWithCore s.data
  | _ => endsWithCore s.data

/-- `RE2::FullMatch(pattern, is_substr_regex_)` where `is_substr_regex_` is
`(\w|\s)*`: the whole string (possibly empty) is word-or-space characters. -/
def isSubstrFullMatch (s : String) : Bool :=
  s.data.all isWordOrSpace

/-- `gandiva::RegexpMatchesHolder`: the compiled-pattern holder. It stores the
pattern source text; the compiled RE2 matcher itself is opaque and its
compilation success is the `re2ok` parameter of the constructors. -/
structure RegexpMatchesHolder where
  pattern : String
  deriving DecidableEq, Repr

/-- `IsArrowStringLiteral`: the literal type must be `STRING` or `BINARY`. -/
def IsArrowStringLiteral (t : ArrowType) : Bool :=
  t = .string || t = .binary

/-- `RegexpMatchesHolder::ValidateArguments`: exactly two children, the second
a literal node of a string-like arrow type. -/
def RegexpMatchesHolder.ValidateArguments (node : FunctionNode) : Status :=
  if node.children.length ≠ 2 then
    .invalid ("'" ++ node.name ++ "' function requires two parameters")
  else
    match node.children.get? 1 with
    | some (.lit t _ _) =>
      if !IsArrowStringLiteral t then
        .invalid ("'" ++ node.name ++
          "' function requires a string literal as the second parameter")
      else .ok
    | _ =>
      .invalid ("'" ++ node.name ++
        "' function requires a literal as the second parameter")

/-- `RegexpMatchesHolder::GetPattern`: validate, then extract the literal's
string value. The final arm models `arrow::util::get<std::string>` applied to
a holder whose active alternative is not the string one; gandiva's literal
makers keep the holder consistent with the declared string-like type, so that
arm is outside the constructible data model. -/
def RegexpMatchesHolder.GetPattern (node : FunctionNode) : Except String String :=
  match RegexpMatchesHolder.ValidateArguments node with
  | .invalid m => .error m
  | .ok =>
    match node.children.get? 1 with
    | some (.lit _ (.str s) _) => .ok s
    | _ => .error "bad variant access"

/-- `RegexpMatchesHolder::Make(const std::string&, shared_ptr*)`: compile the
pattern with RE2; fail when the engine rejects it. -/
def RegexpMatchesHolder.MakeString (re2ok : String → Bool) (pcre_pattern : String) :
    Except String RegexpMatchesHolder :=
  if re2ok pcre_pattern then .ok ⟨pcre_pattern⟩
  else .error ("Building RE2 pattern '" ++ pcre_pattern ++ "' failed")

/-- `RegexpMatchesHolder::Make(const FunctionNode&, shared_ptr*)`: extract the
pattern from the node, then delegate to the string overload. -/
def RegexpMatchesHolder.MakeNode (re2ok : String → Bool) (node : FunctionNode) :
    Except String RegexpMatchesHolder :=
  match RegexpMatchesHolder.GetPattern node with
  | .error m => .error m
  | .ok pattern => RegexpMatchesHolder.MakeString re2ok pattern

/-- `RegexpMatchesHolder::TryOptimize`: build a holder from the node; on
success test the pattern text against the three recognizers in order
(starts_with, ends_with, is_substr) and emit the rewritten node; on any
failure or when no recognizer matches, return the original node. The
`[c0, c1]` pattern mirrors `children().at(0)` / `children().at(1)`, reachable
only when `Make` succeeded and hence validation saw exactly two children. -/
def RegexpMatchesHolder.TryOptimize (re2ok : String → Bool) (node : FunctionNode) :
    FunctionNode :=
  match RegexpMatchesHolder.MakeNode re2ok node, node.children with
  | .ok holder, [c0, c1] =>
    let pattern := holder.pattern
    let literalType := c1.returnType
    match startsWithFullMatch pattern with
    | some substr =>
      ⟨"starts_with", [c0, .lit literalType (.str substr) false], node.retType⟩
    | none =>
      match endsWithFullMatch pattern with
      | some substr =>
        ⟨"ends_with", [c0, .lit literalType (.str substr) false], node.retType⟩
      | none =>
        if isSubstrFullMatch pattern then
          ⟨"is_substr", [c0, .lit literalType (.str pattern) false], node.retType⟩
        else node
  | _, _ => node

/-- `SQLLikeHolder::Make(const std::string&, shared_ptr*)`: translate the SQL
LIKE pattern via `RegexUtil::SqlLikePatternToPcre` (external to this file, the
`translate` parameter), then build the base holder. The C++ body discards the
`Status` returned by `RegexpMatchesHolder::Make`, so when compilation fails it
still returns `Status::OK()` with the output `shared_ptr` left null; the
`Option` models that possibly-null pointer. -/
def SQLLikeHolder.MakeString (re2ok : String → Bool)
    (translate : String → Except String String) (sql_pattern : String) :
    Except String (Option RegexpMatchesHolder) :=
  match translate sql_pattern with
  | .error m => .error m
  | .ok pcre_pattern =>
    .ok (match RegexpMatchesHolder.MakeString re2ok pcre_pattern with
         | .ok h => some h
         | .error _ => none)

/-- `SQLLikeHolder::Make(const FunctionNode&, shared_ptr*)`: extract the (raw,
untranslated) literal from the node, then delegate to the string overload. -/
def SQLLikeHolder.MakeNode (re2ok : String → Bool)
    (translate : String → Except String String) (node : FunctionNode) :
    Except String (Option RegexpMatchesHolder) :=
  match RegexpMatchesHolder.GetPattern node with
  | .error m => .error m
  | .ok pattern => SQLLikeHolder.MakeString re2ok translate pattern

/-! ### Unfolding equations for the recognizer full-match functions -/

theorem startsWithFullMatch_nil : startsWithFullMatch ⟨[]⟩ = none := rfl

theorem startsWithFullMatch_cons (c : Char) (rest : List Char) :
    startsWithFullMatch ⟨c :: rest⟩ =
      if c = '^' then
        if (rest.takeWhile isWordOrSpace).isEmpty then none
        else if (rest.dropWhile isWordOrSpace).isEmpty ||
            rest.dropWhile isWordOrSpace == ['.', '*'] then
          some ⟨rest.takeWhile isWordOrSpace⟩
        else none
      else none := rfl

theorem endsWithCore_eq (l : List Char) :
    endsWithCore l =
      if (l.takeWhile isWordOrSpace).isEmpty then none
      else if l.dropWhile isWordOrSpace == ['$'] then some ⟨l.takeWhile isWordOrSpace⟩
      else none := rfl

theorem endsWithFullMatch_nil : endsWithFullMatch ⟨[]⟩ = endsWithCore [] := rfl

theorem endsWithFullMatch_one (c : Char) :
    endsWithFullMatch ⟨[c]⟩ = endsWithCore [c] := rfl

theorem endsWithFullMatch_cons2 (c1 c2 : Char) (rest : List Char) :
    endsWithFullMatch ⟨c1 :: c2 :: rest⟩ =
      if c1 = '.' && c2 = '*' then endsWithCore rest
      else endsWithCore (c1 :: c2 :: rest) := rfl

theorem isSubstrFullMatch_mk (l : List Char) :
    isSubstrFullMatch ⟨l⟩ = l.all isWordOrSpace := rfl

/-! ### Character-class facts and scanning lemmas -/

theorem not_isWordOrSpace_caret : isWordOrSpace '^' = false := by decide

theorem not_isWordOrSpace_dot : isWordOrSpace '.' = false := by decide

theorem not_isWordOrSpace_dollar : isWordOrSpace '$' = false := by decide

theorem ne_caret_of_isWordOrSpace {c : Char} (h : isWordOrSpace c = true) : c ≠ '^' := by
  rintro rfl; simp [not_isWordOrSpace_caret] at h

theorem ne_dot_of_isWordOrSpace {c : Char} (h : isWordOrSpace c = true) : c ≠ '.' := by
  rintro rfl; simp [not_isWordOrSpace_dot] at h

theorem isEmpty_false_of_ne_nil {α : Type} {l : List α} (h : l ≠ []) :
    l.isEmpty = false := by
  cases l with
  | nil => exact absurd rfl h
  | cons a l => rfl

/-- The recognizers' captures: a whole-string match of the prefix shape. -/
theorem startsWithFullMatch_pos (body opt : List Char) (h1 : body ≠ [])
    (h2 : ∀ a ∈ body, isWordOrSpace a) (h3 : opt = [] ∨ opt = ['.', '*']) :
    startsWithFullMatch ⟨'^' :: (body ++ opt)⟩ = some ⟨body⟩ := by
  have htake : (body ++ opt).takeWhile isWordOrSpace = body := by
    rw [List.takeWhile_append_of_pos h2]
    rcases h3 with rfl | rfl
    · simp
    · rw [List.takeWhile_cons_of_neg (by simp [not_isWordOrSpace_dot])]
      simp
  have hdrop : (body ++ opt).dropWhile isWordOrSpace = opt := by
    rw [List.dropWhile_append_of_pos h2]
    rcases h3 with rfl | rfl
    · simp
    · rw [List.dropWhile_cons_of_neg (by simp [not_isWordOrSpace_dot])]
  rw [startsWithFullMatch_cons, if_pos rfl, htake, hdrop,
    isEmpty_false_of_ne_nil h1]
  rcases h3 with rfl | rfl
  · simp
  · simp

/-- A whole-string match of the `([\w\s]+)\$` core of the suffix shape. -/
theorem endsWithCore_pos (body : List Char) (h1 : body ≠ [])
    (h2 : ∀ a ∈ body, isWordOrSpace a) :
    endsWithCore (body ++ ['$']) = some ⟨body⟩ := by
  have htake : (body ++ ['$']).takeWhile isWordOrSpace = body := by
    rw [List.takeWhile_append_of_pos h2,
      List.takeWhile_cons_of_neg (by simp [not_isWordOrSpace_dollar])]
    simp
  have hdrop : (body ++ ['$']).dropWhile isWordOrSpace = ['$'] := by
    rw [List.dropWhile_append_of_pos h2,
      List.dropWhile_cons_of_neg (by simp [not_isWordOrSpace_dollar])]
  rw [endsWithCore_eq, htake, hdrop, isEmpty_false_of_ne_nil h1]
  simp

/-- A whole-string match of the suffix shape, with or without the optional
leading `.*` marker; the capture is the same in both cases. -/
theorem endsWithFullMatch_pos (body opt : List Char) (h1 : body ≠ [])
    (h2 : ∀ a ∈ body, isWordOrSpace a) (h3 : opt = [] ∨ opt = ['.', '*']) :
    endsWithFullMatch ⟨opt ++ (body ++ ['$'])⟩ = some ⟨body⟩ := by
  rcases h3 with rfl | rfl
  · cases body with
    | nil => exact absurd rfl h1
    | cons b bs =>
      have hb : isWordOrSpace b = true := h2 b (by simp)
      cases bs with
      | nil =>
        rw [List.nil_append, show (([b] ++ ['$'] : List Char)) = [b, '$'] from rfl,
          endsWithFullMatch_cons2, if_neg (by simp [ne_dot_of_isWordOrSpace hb])]
        exact endsWithCore_pos [b] h1 h2
      | cons b2 bs2 =>
        rw [List.nil_append, show ((b :: b2 :: bs2 ++ ['$'] : List Char)) =
            b :: b2 :: (bs2 ++ ['$']) from rfl,
          endsWithFullMatch_cons2, if_neg (by simp [ne_dot_of_isWordOrSpace hb])]
        exact endsWithCore_pos (b :: b2 :: bs2) h1 h2
  · rw [show ((['.', '*'] ++ (body ++ ['$']) : List Char)) =
        '.' :: '*' :: (body ++ ['$']) from rfl,
      endsWithFullMatch_cons2, if_pos (by simp)]
    exact endsWithCore_pos body h1 h2

/-- The prefix recognizer rejects any string that does not start with `^`. -/
theorem startsWithFullMatch_none_of_head {c : Char} (rest : List Char) (h : c ≠ '^') :
    startsWithFullMatch ⟨c :: rest⟩ = none := by
  rw [startsWithFullMatch_cons, if_neg h]

/-- The prefix recognizer rejects word-or-space-only strings. -/
theorem startsWithFullMatch_ws_none (w : List Char) (h : ∀ a ∈ w, isWordOrSpace a) :
    startsWithFullMatch ⟨w⟩ = none := by
  cases w with
  | nil => exact startsWithFullMatch_nil
  | cons c rest =>
    exact startsWithFullMatch_none_of_head rest
      (ne_caret_of_isWordOrSpace (h c (by simp)))

/-- The suffix core rejects word-or-space-only strings (no trailing `$`). -/
theorem endsWithCore_ws_none (w : List Char) (h : ∀ a ∈ w, isWordOrSpace a) :
    endsWithCore w = none := by
  have hdrop : w.dropWhile isWordOrSpace = [] := List.dropWhile_eq_nil_iff.mpr h
  rw [endsWithCore_eq, hdrop]
  simp

/-- The suffix recognizer rejects word-or-space-only strings. -/
theorem endsWithFullMatch_ws_none (w : List Char) (h : ∀ a ∈ w, isWordOrSpace a) :
    endsWithFullMatch ⟨w⟩ = none := by
  match w with
  | [] => rw [endsWithFullMatch_nil]; exact endsWithCore_ws_none [] h
  | [c] => rw [endsWithFullMatch_one]; exact endsWithCore_ws_none [c] h
  | c1 :: c2 :: rest =>
    rw [endsWithFullMatch_cons2,
      if_neg (by simp [ne_dot_of_isWordOrSpace (h c1 (by simp))])]
    exact endsWithCore_ws_none _ h

/-- Any capture the prefix recognizer produces is word-or-space-only. -/
theorem startsWithFullMatch_some_ws {s t : String}
    (h : startsWithFullMatch s = some t) : ∀ a ∈ t.data, isWordOrSpace a := by
  obtain ⟨l⟩ := s
  cases l with
  | nil => exact absurd h (by rw [startsWithFullMatch_nil]; simp)
  | cons c rest =>
    rw [startsWithFullMatch_cons] at h
    split_ifs at h
    all_goals cases h
    all_goals intro a ha
    all_goals exact List.mem_takeWhile_imp ha

/-- Any capture the suffix core produces is word-or-space-only. -/
theorem endsWithCore_some_ws {l : List Char} {t : String}
    (h : endsWithCore l = some t) : ∀ a ∈ t.data, isWordOrSpace a := by
  rw [endsWithCore_eq] at h
  split_ifs at h
  all_goals cases h
  all_goals intro a ha
  all_goals exact List.mem_takeWhile_imp ha

/-- Any capture the suffix recognizer produces is word-or-space-only. -/
theorem endsWithFullMatch_some_ws {s t : String}
    (h : endsWithFullMatch s = some t) : ∀ a ∈ t.data, isWordOrSpace a := by
  obtain ⟨l⟩ := s
  match l with
  | [] => rw [endsWithFullMatch_nil] at h; exact endsWithCore_some_ws h
  | [c] => rw [endsWithFullMatch_one] at h; exact endsWithCore_some_ws h
  | c1 :: c2 :: rest =>
    rw [endsWithFullMatch_cons2] at h
    split_ifs at h
    · exact endsWithCore_some_ws h
    · exact endsWithCore_some_ws h

/-! ### Validation and construction lemmas -/

/-- Validation succeeds exactly on two-child nodes whose second child is a
string-like literal. -/
theorem validateArguments_ok_iff (node : FunctionNode) :
    RegexpMatchesHolder.ValidateArguments node = .ok ↔
      ∃ c0 t h nul, node.children = [c0, Node.lit t h nul] ∧
        IsArrowStringLiteral t = true := by
  obtain ⟨nm, ch, rt⟩ := node
  match ch with
  | [] => simp [RegexpMatchesHolder.ValidateArguments]
  | [a] => simp [RegexpMatchesHolder.ValidateArguments]
  | a :: b :: c :: l => simp [RegexpMatchesHolder.ValidateArguments]
  | [a, b] =>
    cases b with
    | fn bn bc bt => simp [RegexpMatchesHolder.ValidateArguments]
    | field bn bt => simp [RegexpMatchesHolder.ValidateArguments]
    | lit t hv nul =>
      by_cases hT : IsArrowStringLiteral t = true
      · simp [RegexpMatchesHolder.ValidateArguments, hT]
        exact ⟨a, t, ⟨rfl, rfl⟩, hT⟩
      · simp only [Bool.not_eq_true] at hT
        simp [RegexpMatchesHolder.ValidateArguments, hT]

/-- An invalid validation propagates through `GetPattern` and the node-based
`Make` unchanged. -/
theorem makeNode_error_of_invalid (re2ok : String → Bool) (node : FunctionNode)
    (m : String) (h : RegexpMatchesHolder.ValidateArguments node = .invalid m) :
    RegexpMatchesHolder.MakeNode re2ok node = .error m := by
  simp [RegexpMatchesHolder.MakeNode, RegexpMatchesHolder.GetPattern, h]

/-- `GetPattern` on a well-shaped node returns the literal's string value. -/
theorem getPattern_eq (nm : String) (c0 : Node) (t : ArrowType) (p : String)
    (nul : Bool) (rt : ArrowType) (hT : IsArrowStringLiteral t = true) :
    RegexpMatchesHolder.GetPattern ⟨nm, [c0, .lit t (.str p) nul], rt⟩ = .ok p := by
  simp [RegexpMatchesHolder.GetPattern, RegexpMatchesHolder.ValidateArguments, hT]

/-- The node-based `Make` on a well-shaped node with an engine-accepted
pattern returns a holder storing exactly the literal's value. -/
theorem makeNode_ok_of (re2ok : String → Bool) (nm : String) (c0 : Node)
    (t : ArrowType) (p : String) (nul : Bool) (rt : ArrowType)
    (hT : IsArrowStringLiteral t = true) (hp : re2ok p = true) :
    RegexpMatchesHolder.MakeNode re2ok ⟨nm, [c0, .lit t (.str p) nul], rt⟩ =
      .ok ⟨p⟩ := by
  simp [RegexpMatchesHolder.MakeNode, getPattern_eq nm c0 t p nul rt hT,
    RegexpMatchesHolder.MakeString, hp]

/-- Whenever the node-based `Make` succeeds, the node had exactly two
children, the second a string-like literal holding the stored pattern, and
the engine accepted the pattern. -/
theorem makeNode_ok_shape (re2ok : String → Bool) (node : FunctionNode)
    (hd : RegexpMatchesHolder)
    (h : RegexpMatchesHolder.MakeNode re2ok node = .ok hd) :
    ∃ c0 t nul, node.children = [c0, Node.lit t (.str hd.pattern) nul] ∧
      IsArrowStringLiteral t = true ∧ re2ok hd.pattern = true := by
  obtain ⟨nm, ch, rt⟩ := node
  match ch with
  | [] =>
    simp [RegexpMatchesHolder.MakeNode, RegexpMatchesHolder.GetPattern,
      RegexpMatchesHolder.ValidateArguments] at h
  | [a] =>
    simp [RegexpMatchesHolder.MakeNode, RegexpMatchesHolder.GetPattern,
      RegexpMatchesHolder.ValidateArguments] at h
  | a :: b :: c :: l =>
    simp [RegexpMatchesHolder.MakeNode, RegexpMatchesHolder.GetPattern,
      RegexpMatchesHolder.ValidateArguments] at h
  | [a, b] =>
    cases b with
    | fn bn bc bt =>
      simp [RegexpMatchesHolder.MakeNode, RegexpMatchesHolder.GetPattern,
        RegexpMatchesHolder.ValidateArguments] at h
    | field bn bt =>
      simp [RegexpMatchesHolder.MakeNode, RegexpMatchesHolder.GetPattern,
        RegexpMatchesHolder.ValidateArguments] at h
    | lit t hv nul =>
      by_cases hT : IsArrowStringLiteral t = true
      · cases hv with
        | nonString =>
          simp [RegexpMatchesHolder.MakeNode, RegexpMatchesHolder.GetPattern,
            RegexpMatchesHolder.ValidateArguments, hT] at h
        | str p =>
          by_cases hp : re2ok p = true
          · rw [makeNode_ok_of re2ok nm a t p nul rt hT hp] at h
            obtain rfl : (⟨p⟩ : RegexpMatchesHolder) = hd := by
              cases h; rfl
            exact ⟨a, t, nul, rfl, hT, hp⟩
          · simp only [Bool.not_eq_true] at hp
            simp [RegexpMatchesHolder.MakeNode, getPattern_eq nm a t p nul rt hT,
              RegexpMatchesHolder.MakeString, hp] at h
      · simp only [Bool.not_eq_true] at hT
        simp [RegexpMatchesHolder.MakeNode, RegexpMatchesHolder.GetPattern,
          RegexpMatchesHolder.ValidateArguments, hT] at h

/-! ### TryOptimize reduction lemmas -/

/-- When holder construction fails, `TryOptimize` returns the input node. -/
theorem tryOptimize_of_error (re2ok : String → Bool) (node : FunctionNode)
    (m : String) (h : RegexpMatchesHolder.MakeNode re2ok node = .error m) :
    RegexpMatchesHolder.TryOptimize re2ok node = node := by
  unfold RegexpMatchesHolder.TryOptimize
  rw [h]

/-- When holder construction cannot succeed, `TryOptimize` returns the input
node. -/
theorem tryOptimize_of_no_holder (re2ok : String → Bool) (node : FunctionNode)
    (h : ∀ hd, ¬ RegexpMatchesHolder.MakeNode re2ok node = .ok hd) :
    RegexpMatchesHolder.TryOptimize re2ok node = node := by
  cases hM : RegexpMatchesHolder.MakeNode re2ok node with
  | error m => exact tryOptimize_of_error re2ok node m hM
  | ok hd => exact absurd hM (h hd)

/-- On a well-shaped node with an engine-accepted pattern, `TryOptimize`
reduces to the three-recognizer cascade on the pattern text. -/
theorem tryOptimize_reduce (re2ok : String → Bool) (nm : String) (c0 : Node)
    (t : ArrowType) (p : String) (nul : Bool) (rt : ArrowType)
    (hT : IsArrowStringLiteral t = true) (hp : re2ok p = true) :
    RegexpMatchesHolder.TryOptimize re2ok ⟨nm, [c0, .lit t (.str p) nul], rt⟩ =
      match startsWithFullMatch p with
      | some substr => ⟨"starts_with", [c0, .lit t (.str substr) false], rt⟩
      | none =>
        match endsWithFullMatch p with
        | some substr => ⟨"ends_with", [c0, .lit t (.str substr) false], rt⟩
        | none =>
          if isSubstrFullMatch p then
            ⟨"is_substr", [c0, .lit t (.str p) false], rt⟩
          else ⟨nm, [c0, .lit t (.str p) nul], rt⟩ := by
  unfold RegexpMatchesHolder.TryOptimize
  rw [makeNode_ok_of re2ok nm c0 t p nul rt hT hp]
  rfl

/-- `TryOptimize` on a well-shaped node whose pattern matches none of the
three recognizers returns the input node, whatever the type or the engine's
verdict. -/
theorem tryOptimize_noshape (re2ok : String → Bool) (nm : String) (c0 : Node)
    (t : ArrowType) (p : String) (nul : Bool) (rt : ArrowType)
    (hs : startsWithFullMatch p = none) (he : endsWithFullMatch p = none)
    (hsub : isSubstrFullMatch p = false) :
    RegexpMatchesHolder.TryOptimize re2ok ⟨nm, [c0, .lit t (.str p) nul], rt⟩ =
      ⟨nm, [c0, .lit t (.str p) nul], rt⟩ := by
  by_cases hT : IsArrowStringLiteral t = true
  · by_cases hp : re2ok p = true
    · rw [tryOptimize_reduce re2ok nm c0 t p nul rt hT hp, hs, he, hsub]
      simp
    · apply tryOptimize_of_no_holder
      intro hd hM
      obtain ⟨c0', t', nul', hch, _, hp'⟩ := makeNode_ok_shape re2ok _ hd hM
      simp only [List.cons.injEq, Node.lit.injEq, LiteralHolder.str.injEq] at hch
      obtain ⟨-, ⟨-, hpat, -⟩, -⟩ := hch
      rw [← hpat] at hp'
      exact hp hp'
  · apply tryOptimize_of_no_holder
    intro hd hM
    obtain ⟨c0', t', nul', hch, hT', -⟩ := makeNode_ok_shape re2ok _ hd hM
    simp only [List.cons.injEq, Node.lit.injEq, LiteralHolder.str.injEq] at hch
    obtain ⟨-, ⟨ht', -, -⟩, -⟩ := hch
    rw [← ht'] at hT'
    exact hT hT'

/-- Every output of `TryOptimize` is either the input node itself or a
rewrite: one of the three target operations over the original first child and
a freshly built non-nullable literal, whose text is word-or-space-only, typed
with the original second child's type, under the original result type. -/
theorem tryOptimize_cases (re2ok : String → Bool) (node : FunctionNode) :
    RegexpMatchesHolder.TryOptimize re2ok node = node ∨
    ∃ (onm : String) (w : List Char) (c0 : Node) (t : ArrowType) (nul : Bool)
      (p : String),
      node.children = [c0, Node.lit t (.str p) nul] ∧
      IsArrowStringLiteral t = true ∧ re2ok p = true ∧
      (∀ a ∈ w, isWordOrSpace a) ∧
      (onm = "starts_with" ∨ onm = "ends_with" ∨ onm = "is_substr") ∧
      RegexpMatchesHolder.TryOptimize re2ok node =
        ⟨onm, [c0, .lit t (.str ⟨w⟩) false], node.retType⟩ := by
  cases hM : RegexpMatchesHolder.MakeNode re2ok node with
  | error m => exact Or.inl (tryOptimize_of_error re2ok node m hM)
  | ok hd =>
    obtain ⟨c0, t, nul, hch, hT, hp⟩ := makeNode_ok_shape re2ok node hd hM
    obtain ⟨nm, ch, rt⟩ := node
    simp only at hch
    subst hch
    rw [tryOptimize_reduce re2ok nm c0 t hd.pattern nul rt hT hp]
    cases hS : startsWithFullMatch hd.pattern with
    | some substr =>
      refine Or.inr ⟨"starts_with", substr.data, c0, t, nul, hd.pattern, rfl,
        hT, hp, startsWithFullMatch_some_ws hS, Or.inl rfl, ?_⟩
      rfl
    | none =>
      cases hE : endsWithFullMatch hd.pattern with
      | some substr =>
        refine Or.inr ⟨"ends_with", substr.data, c0, t, nul, hd.pattern, rfl,
          hT, hp, endsWithFullMatch_some_ws hE, Or.inr (Or.inl rfl), ?_⟩
        rfl
      | none =>
        by_cases hsub : isSubstrFullMatch hd.pattern = true
        · rw [if_pos hsub]
          refine Or.inr ⟨"is_substr", hd.pattern.data, c0, t, nul, hd.pattern,
            rfl, hT, hp, ?_, Or.inr (Or.inr rfl), rfl⟩
          simpa [isSubstrFullMatch, List.all_eq_true] using hsub
        · simp only [Bool.not_eq_true] at hsub
          rw [if_neg (by simp [hsub])]
          exact Or.inl rfl

/-- `TryOptimize` on a node whose string-like literal is word-or-space-only
text: rejected patterns leave the node unchanged, accepted ones rewrite it to
the `is_substr` form (idempotently if it already is that form). -/
theorem tryOptimize_allws (re2ok : String → Bool) (nm : String) (c0 : Node)
    (t : ArrowType) (nul : Bool) (rt : ArrowType) (w : List Char)
    (hT : IsArrowStringLiteral t = true) (hw : ∀ a ∈ w, isWordOrSpace a) :
    RegexpMatchesHolder.TryOptimize re2ok ⟨nm, [c0, .lit t (.str ⟨w⟩) nul], rt⟩ =
      if re2ok ⟨w⟩ then ⟨"is_substr", [c0, .lit t (.str ⟨w⟩) false], rt⟩
      else ⟨nm, [c0, .lit t (.str ⟨w⟩) nul], rt⟩ := by
  by_cases hp : re2ok (⟨w⟩ : String) = true
  · rw [tryOptimize_reduce re2ok nm c0 t ⟨w⟩ nul rt hT hp,
      startsWithFullMatch_ws_none w hw, endsWithFullMatch_ws_none w hw, if_pos hp]
    rw [if_pos (by simpa [isSubstrFullMatch, List.all_eq_true] using hw)]
  · rw [if_neg (by simpa using hp)]
    apply tryOptimize_of_no_holder
    intro hd hM
    obtain ⟨c0', t', nul', hch, -, hp'⟩ := makeNode_ok_shape re2ok _ hd hM
    simp only [List.cons.injEq, Node.lit.injEq, LiteralHolder.str.injEq] at hch
    obtain ⟨-, ⟨-, hpat, -⟩, -⟩ := hch
    rw [← hpat] at hp'
    exact hp hp'

/-! ### Claim theorems -/

/-- C1: `TryOptimize` is a total function (totality is by construction of the
embedding); whenever internal holder construction fails — validation or RE2
compilation, i.e. `Make` returns an error — or the holder was built but the
pattern's source text full-matches none of the three recognizer shapes,
`TryOptimize` returns the original input node unchanged. -/
theorem tryOptimize_never_fails (re2ok : String → Bool) (node : FunctionNode) :
    (∀ m, RegexpMatchesHolder.MakeNode re2ok node = .error m →
      RegexpMatchesHolder.TryOptimize re2ok node = node) ∧
    (∀ hd, RegexpMatchesHolder.MakeNode re2ok node = .ok hd →
      startsWithFullMatch hd.pattern = none →
      endsWithFullMatch hd.pattern = none →
      isSubstrFullMatch hd.pattern = false →
      RegexpMatchesHolder.TryOptimize re2ok node = node) := by
  constructor
  · intro m h
    exact tryOptimize_of_error re2ok node m h
  · intro hd hM hs he hsub
    obtain ⟨c0, t, nul, hch, hT, hp⟩ := makeNode_ok_shape re2ok node hd hM
    obtain ⟨nm, ch, rt⟩ := node
    simp only at hch
    subst hch
    exact tryOptimize_noshape re2ok nm c0 t hd.pattern nul rt hs he hsub

/-- Witness for C1: with an engine rejecting every pattern, `TryOptimize`
returns the input node unchanged on a concrete predicate node. -/
theorem tryOptimize_never_fails_witness :
    RegexpMatchesHolder.TryOptimize (fun _ => false)
        ⟨"regexp_matches", [.field "x" .string, .lit .string (.str "abc") true],
          .boolean⟩ =
      ⟨"regexp_matches", [.field "x" .string, .lit .string (.str "abc") true],
        .boolean⟩ :=
  (tryOptimize_never_fails (fun _ => false)
      ⟨"regexp_matches", [.field "x" .string, .lit .string (.str "abc") true],
        .boolean⟩).1
    "Building RE2 pattern 'abc' failed" rfl

/-- C2 counterexample: `TryOptimize` is not idempotent. On the node
`regexp_matches(x, "^hello")` one application yields the `starts_with` node
with literal `hello`, but a second application rewrites that output again
(to `is_substr`), so re-applying `TryOptimize` to its own output is not a
no-op. -/
theorem tryOptimize_not_idempotent :
    RegexpMatchesHolder.TryOptimize (fun _ => true)
        (RegexpMatchesHolder.TryOptimize (fun _ => true)
          ⟨"regexp_matches",
            [.field "x" .string, .lit .string (.str "^hello") true], .boolean⟩) ≠
      RegexpMatchesHolder.TryOptimize (fun _ => true)
        ⟨"regexp_matches",
          [.field "x" .string, .lit .string (.str "^hello") true], .boolean⟩ := by
  intro h
  exact absurd (congrArg FunctionNode.name h) (by decide)

/-- C2 amended: one application of `TryOptimize` need not be a fixed point
(a `starts_with`/`ends_with` rewrite's captured literal is word-or-whitespace
only, so it still matches the plain-substring shape and is rewritten again),
but two applications are: applying `TryOptimize` to the output of a double
application returns that output unchanged. -/
theorem tryOptimize_twice_reaches_fixpoint (re2ok : String → Bool)
    (node : FunctionNode) :
    RegexpMatchesHolder.TryOptimize re2ok
        (RegexpMatchesHolder.TryOptimize re2ok
          (RegexpMatchesHolder.TryOptimize re2ok node)) =
      RegexpMatchesHolder.TryOptimize re2ok
        (RegexpMatchesHolder.TryOptimize re2ok node) := by
  rcases tryOptimize_cases re2ok node with
    h | ⟨onm, w, c0, t, nul, p, hch, hT, hp, hw, honm, hout⟩
  · simp only [h]
  · rw [hout, tryOptimize_allws re2ok onm c0 t false node.retType w hT hw]
    by_cases hre : re2ok (⟨w⟩ : String) = true
    · rw [if_pos hre,
        tryOptimize_allws re2ok "is_substr" c0 t false node.retType w hT hw,
        if_pos hre]
    · rw [if_neg (by simpa using hre),
        tryOptimize_allws re2ok onm c0 t false node.retType w hT hw,
        if_neg (by simpa using hre)]

/-- C3 (code bug): when translation succeeds but the matching engine rejects
the translated pattern, `SQLLikeHolder::Make` does not surface an
Invalid-Pattern failure — the C++ code discards the `Status` of the base
constructor and returns `Status::OK()` with the output holder pointer left
null. Evaluated here with an identity translator and an engine rejecting
every pattern. -/
theorem sqlLikeHolder_make_drops_compile_failure :
    SQLLikeHolder.MakeString (fun _ => false) (fun s => .ok s) "ab" =
      .ok none := rfl

/-- C4: the node-based `Make` fails with the validator's Invalid-Shape error
exactly when the node is not a two-child node whose second child is a
string-like literal; and on every well-shaped node whose second child holds
an engine-acceptable pattern, `Make` succeeds with a holder storing exactly
the literal's value. -/
theorem makeNode_invalid_shape_iff (re2ok : String → Bool) (node : FunctionNode) :
    ((∃ m, RegexpMatchesHolder.ValidateArguments node = .invalid m ∧
        RegexpMatchesHolder.MakeNode re2ok node = .error m) ↔
      ¬ ∃ c0 t h nul, node.children = [c0, Node.lit t h nul] ∧
          IsArrowStringLiteral t = true) ∧
    (∀ c0 t p nul, node.children = [c0, Node.lit t (.str p) nul] →
      IsArrowStringLiteral t = true → re2ok p = true →
      RegexpMatchesHolder.MakeNode re2ok node = .ok ⟨p⟩) := by
  constructor
  · constructor
    · rintro ⟨m, hv, -⟩ hshape
      rw [(validateArguments_ok_iff node).2 hshape] at hv
      cases hv
    · intro hshape
      cases hVal : RegexpMatchesHolder.ValidateArguments node with
      | ok => exact absurd ((validateArguments_ok_iff node).1 hVal) hshape
      | invalid m => exact ⟨m, rfl, makeNode_error_of_invalid re2ok node m hVal⟩
  · intro c0 t p nul hch hT hp
    obtain ⟨nm, ch, rt⟩ := node
    simp only at hch
    subst hch
    exact makeNode_ok_of re2ok nm c0 t p nul rt hT hp

/-- Witness for C4: `Make` succeeds on a concrete well-shaped node and stores
the literal's value. -/
theorem makeNode_invalid_shape_iff_witness :
    RegexpMatchesHolder.MakeNode (fun _ => true)
        ⟨"like", [.field "x" .string, .lit .string (.str "ab") true], .boolean⟩ =
      .ok ⟨"ab"⟩ :=
  (makeNode_invalid_shape_iff (fun _ => true)
      ⟨"like", [.field "x" .string, .lit .string (.str "ab") true], .boolean⟩).2
    _ _ "ab" _ rfl rfl rfl

/-- C5: on every validated node whose pattern text is a leading `^`, then one
or more word-or-whitespace characters (the capture), then an optional literal
`.*`, `TryOptimize` returns a `starts_with` node over the original first
child and a new literal holding the captured text. -/
theorem tryOptimize_starts_with_rewrite (re2ok : String → Bool) (nm : String)
    (c0 : Node) (t : ArrowType) (nul : Bool) (rt : ArrowType)
    (body opt : List Char) (hT : IsArrowStringLiteral t = true)
    (h1 : body ≠ []) (h2 : body.all isWordOrSpace = true)
    (h3 : opt = [] ∨ opt = ['.', '*'])
    (hp : re2ok ⟨'^' :: (body ++ opt)⟩ = true) :
    RegexpMatchesHolder.TryOptimize re2ok
        ⟨nm, [c0, .lit t (.str ⟨'^' :: (body ++ opt)⟩) nul], rt⟩ =
      ⟨"starts_with", [c0, .lit t (.str ⟨body⟩) false], rt⟩ := by
  rw [tryOptimize_reduce re2ok nm c0 t _ nul rt hT hp,
    startsWithFullMatch_pos body opt h1 (by simpa [List.all_eq_true] using h2) h3]

/-- Witness for C5: the pattern `^hello` is rewritten to
`starts_with(x, "hello")`. -/
theorem tryOptimize_starts_with_rewrite_witness :
    RegexpMatchesHolder.TryOptimize (fun _ => true)
        ⟨"regexp_matches",
          [.field "x" .string, .lit .string (.str "^hello") true], .boolean⟩ =
      ⟨"starts_with",
        [.field "x" .string, .lit .string (.str "hello") false], .boolean⟩ :=
  tryOptimize_starts_with_rewrite (fun _ => true) "regexp_matches"
    (.field "x" .string) .string true .boolean ['h', 'e', 'l', 'l', 'o'] []
    rfl (by decide) (by decide) (Or.inl rfl) rfl

/-- C6: on every validated node whose pattern text is an optional literal
`.*`, then one or more word-or-whitespace characters (the capture), then a
trailing `$`, `TryOptimize` returns an `ends_with` node holding the captured
text; the captured literal is the same whether or not the optional leading
marker is present (the conclusion does not depend on `opt`). -/
theorem tryOptimize_ends_with_rewrite (re2ok : String → Bool) (nm : String)
    (c0 : Node) (t : ArrowType) (nul : Bool) (rt : ArrowType)
    (body opt : List Char) (hT : IsArrowStringLiteral t = true)
    (h1 : body ≠ []) (h2 : body.all isWordOrSpace = true)
    (h3 : opt = [] ∨ opt = ['.', '*'])
    (hp : re2ok ⟨opt ++ (body ++ ['$'])⟩ = true) :
    RegexpMatchesHolder.TryOptimize re2ok
        ⟨nm, [c0, .lit t (.str ⟨opt ++ (body ++ ['$'])⟩) nul], rt⟩ =
      ⟨"ends_with", [c0, .lit t (.str ⟨body⟩) false], rt⟩ := by
  have hmem : ∀ a ∈ body, isWordOrSpace a := by
    simpa [List.all_eq_true] using h2
  have hs : startsWithFullMatch ⟨opt ++ (body ++ ['$'])⟩ = none := by
    rcases h3 with rfl | rfl
    · rw [List.nil_append]
      cases body with
      | nil => exact absurd rfl h1
      | cons b bs =>
        exact startsWithFullMatch_none_of_head _
          (ne_caret_of_isWordOrSpace (hmem b (by simp)))
    · exact startsWithFullMatch_none_of_head _ (by decide)
  rw [tryOptimize_reduce re2ok nm c0 t _ nul rt hT hp, hs,
    endsWithFullMatch_pos body opt h1 hmem h3]

/-- Witness for C6: the pattern `.*world$` is rewritten to
`ends_with(x, "world")`. -/
theorem tryOptimize_ends_with_rewrite_witness :
    RegexpMatchesHolder.TryOptimize (fun _ => true)
        ⟨"regexp_matches",
          [.field "x" .string, .lit .string (.str ".*world$") true], .boolean⟩ =
      ⟨"ends_with",
        [.field "x" .string, .lit .string (.str "world") false], .boolean⟩ :=
  tryOptimize_ends_with_rewrite (fun _ => true) "regexp_matches"
    (.field "x" .string) .string true .boolean ['w', 'o', 'r', 'l', 'd']
    ['.', '*'] rfl (by decide) (by decide) (Or.inr rfl) rfl

/-- C7: on every validated node whose pattern text consists solely of
word-or-whitespace characters (zero or more, the empty string included),
`TryOptimize` returns an `is_substr` node whose new literal holds the
original, unmodified pattern text. -/
theorem tryOptimize_is_substr_rewrite (re2ok : String → Bool) (nm : String)
    (c0 : Node) (t : ArrowType) (nul : Bool) (rt : ArrowType) (p : String)
    (hT : IsArrowStringLiteral t = true)
    (hws : p.data.all isWordOrSpace = true) (hp : re2ok p = true) :
    RegexpMatchesHolder.TryOptimize re2ok
        ⟨nm, [c0, .lit t (.str p) nul], rt⟩ =
      ⟨"is_substr", [c0, .lit t (.str p) false], rt⟩ := by
  have hmem : ∀ a ∈ p.data, isWordOrSpace a := by
    simpa [List.all_eq_true] using hws
  have hs : startsWithFullMatch p = none := startsWithFullMatch_ws_none p.data hmem
  have he : endsWithFullMatch p = none := endsWithFullMatch_ws_none p.data hmem
  rw [tryOptimize_reduce re2ok nm c0 t p nul rt hT hp, hs, he,
    if_pos (show isSubstrFullMatch p = true from hws)]

/-- Witness for C7: the pattern `hello world` is rewritten to
`is_substr(x, "hello world")`. -/
theorem tryOptimize_is_substr_rewrite_witness :
    RegexpMatchesHolder.TryOptimize (fun _ => true)
        ⟨"regexp_matches",
          [.field "x" .string, .lit .string (.str "hello world") true],
          .boolean⟩ =
      ⟨"is_substr",
        [.field "x" .string, .lit .string (.str "hello world") false],
        .boolean⟩ :=
  tryOptimize_is_substr_rewrite (fun _ => true) "regexp_matches"
    (.field "x" .string) .string true .boolean "hello world" rfl (by decide) rfl

/-- C8: the pattern texts `hello.*` (wildcard marker, no anchors) and `h.llo`
(single-character wildcard) full-match none of the three recognizer shapes,
and on every node carrying either of them `TryOptimize` returns the original
node unchanged. -/
theorem tryOptimize_wildcard_patterns_unchanged :
    (startsWithFullMatch "hello.*" = none ∧ endsWithFullMatch "hello.*" = none ∧
      isSubstrFullMatch "hello.*" = false) ∧
    (startsWithFullMatch "h.llo" = none ∧ endsWithFullMatch "h.llo" = none ∧
      isSubstrFullMatch "h.llo" = false) ∧
    ∀ (re2ok : String → Bool) (nm : String) (c0 : Node) (t : ArrowType)
      (nul : Bool) (rt : ArrowType) (p : String),
      p = "hello.*" ∨ p = "h.llo" →
      RegexpMatchesHolder.TryOptimize re2ok ⟨nm, [c0, .lit t (.str p) nul], rt⟩ =
        ⟨nm, [c0, .lit t (.str p) nul], rt⟩ := by
  refine ⟨by decide, by decide, ?_⟩
  intro re2ok nm c0 t nul rt p hp
  rcases hp with rfl | rfl
  · exact tryOptimize_noshape re2ok nm c0 t _ nul rt
      (by decide) (by decide) (by decide)
  · exact tryOptimize_noshape re2ok nm c0 t _ nul rt
      (by decide) (by decide) (by decide)

/-- Witness for C8: `h.llo` leaves a concrete node unchanged. -/
theorem tryOptimize_wildcard_patterns_unchanged_witness :
    RegexpMatchesHolder.TryOptimize (fun _ => true)
        ⟨"regexp_matches",
          [.field "x" .string, .lit .string (.str "h.llo") true], .boolean⟩ =
      ⟨"regexp_matches",
        [.field "x" .string, .lit .string (.str "h.llo") true], .boolean⟩ :=
  tryOptimize_wildcard_patterns_unchanged.2.2 (fun _ => true) "regexp_matches"
    (.field "x" .string) .string true .boolean "h.llo" (Or.inr rfl)

/-- C9: every rewrite `TryOptimize` performs keeps the original node's
declared result type, types the new literal child with the original second
child's declared type, and marks the new literal non-nullable. -/
theorem tryOptimize_preserves_types (re2ok : String → Bool)
    (node : FunctionNode) :
    RegexpMatchesHolder.TryOptimize re2ok node = node ∨
    ∃ (onm : String) (s : String) (c0 c1 : Node),
      node.children = [c0, c1] ∧
      RegexpMatchesHolder.TryOptimize re2ok node =
        ⟨onm, [c0, .lit c1.returnType (.str s) false], node.retType⟩ := by
  rcases tryOptimize_cases re2ok node with
    h | ⟨onm, w, c0, t, nul, p, hch, -, -, -, -, hout⟩
  · exact Or.inl h
  · exact Or.inr ⟨onm, ⟨w⟩, c0, .lit t (.str p) nul, hch, hout⟩

/-- C10: `TryOptimize` never inspects the input node's operation name — on
any two-child node whose second child is a string-like literal with an
engine-accepted pattern matching one of the recognizer shapes, the result is
the same for every operation name; in particular a `starts_with` node it
itself produced, with literal child `hello`, is rewritten to `is_substr`. -/
theorem tryOptimize_ignores_operation_name (re2ok : String → Bool) :
    (∀ (nm nm' : String) (c0 : Node) (t : ArrowType) (p : String) (nul : Bool)
      (rt : ArrowType),
      IsArrowStringLiteral t = true → re2ok p = true →
      (startsWithFullMatch p ≠ none ∨ endsWithFullMatch p ≠ none ∨
        isSubstrFullMatch p = true) →
      RegexpMatchesHolder.TryOptimize re2ok
          ⟨nm, [c0, .lit t (.str p) nul], rt⟩ =
        RegexpMatchesHolder.TryOptimize re2ok
          ⟨nm', [c0, .lit t (.str p) nul], rt⟩) ∧
    (∀ (c0 : Node) (t : ArrowType) (rt : ArrowType),
      IsArrowStringLiteral t = true → re2ok "hello" = true →
      RegexpMatchesHolder.TryOptimize re2ok
          ⟨"starts_with", [c0, .lit t (.str "hello") false], rt⟩ =
        ⟨"is_substr", [c0, .lit t (.str "hello") false], rt⟩) := by
  constructor
  · intro nm nm' c0 t p nul rt hT hp hshape
    rw [tryOptimize_reduce re2ok nm c0 t p nul rt hT hp,
      tryOptimize_reduce re2ok nm' c0 t p nul rt hT hp]
    cases hS : startsWithFullMatch p with
    | some s => rfl
    | none =>
      cases hE : endsWithFullMatch p with
      | some s => rfl
      | none =>
        have hsub : isSubstrFullMatch p = true := by
          rcases hshape with h | h | h
          · exact absurd hS h
          · exact absurd hE h
          · exact h
        rw [if_pos hsub, if_pos hsub]
  · intro c0 t rt hT hp
    rw [tryOptimize_reduce re2ok "starts_with" c0 t "hello" false rt hT hp,
      show startsWithFullMatch "hello" = none by decide,
      show endsWithFullMatch "hello" = none by decide,
      if_pos (show isSubstrFullMatch "hello" = true by decide)]

/-- Witness for C10: the concrete `starts_with(x, "hello")` node is itself
rewritten to `is_substr(x, "hello")`. -/
theorem tryOptimize_ignores_operation_name_witness :
    RegexpMatchesHolder.TryOptimize (fun _ => true)
        ⟨"starts_with",
          [.field "x" .string, .lit .string (.str "hello") false], .boolean⟩ =
      ⟨"is_substr",
        [.field "x" .string, .lit .string (.str "hello") false], .boolean⟩ :=
  (tryOptimize_ignores_operation_name (fun _ => true)).2
    (.field "x" .string) .string .boolean rfl rfl

end Gandiva
